import Mathlib

/-!
Shallow embedding of the activity-report generator
(`internal/activityreport/activityreport.go` of Stone-IT-Cloud/reporting).

External collaborators (file system, environment, YAML parser, JSON
codec, the genai client) are modelled as oracle functions collected in a
`World` record; the control flow of `LoadConfig`, `GenerateReport` and
`extractTextFromResponse` is translated statement by statement.  Backend
interactions are recorded as an explicit event trace so that properties
about which calls occur (and in which order) can be stated.
-/

namespace Reporting

/-- Configuration record, mirroring Go `Config` (activityreport.go:20-26).
`ChunkSize` is a Go `int`, so it is modelled as `Int`. -/
structure Config where
  chunkSize : Int
  projectID : String
  location : String
  geminiModel : String
  credentialsFile : String
deriving DecidableEq, Repr

/-- Environment variable name for the API key (activityreport.go:76). -/
def apiKeyEnvVar : String := "VERTEX_AI_API_KEY"

/-- Environment variable name for the credentials file (activityreport.go:79). -/
def credentialsFileEnvVar : String := "GOOGLE_APPLICATION_CREDENTIALS"

/-- LoadConfig (activityreport.go:29-69).  `clean` models `filepath.Clean`,
`stat` models the `os.Stat` existence check, `readFile` models `os.ReadFile`
(error value = message), `yamlParse` models `yaml.Unmarshal`. -/
def LoadConfig (clean : String → String) (stat : String → Bool)
    (readFile : String → Except String String)
    (yamlParse : String → Except String Config)
    (configPath : String) : Except String Config :=
  if configPath = "" then
    Except.error "config path cannot be empty"
  else
    let cleanedPath := clean configPath
    if ¬ stat cleanedPath then
      Except.error ("config file not found at path: " ++ cleanedPath)
    else
      match readFile cleanedPath with
      | Except.error e =>
          Except.error ("failed to read config file " ++ cleanedPath ++ ": " ++ e)
      | Except.ok yamlFile =>
        match yamlParse yamlFile with
        | Except.error e =>
            Except.error ("failed to unmarshal config YAML from " ++ cleanedPath ++ ": " ++ e)
        | Except.ok cfg =>
          if cfg.chunkSize ≤ 0 then
            Except.error "chunk_size must be positive in config"
          else if cfg.projectID = "" then
            Except.error "project_id cannot be empty in config"
          else if cfg.location = "" then
            Except.error "location cannot be empty in config"
          else if cfg.geminiModel = "" then
            Except.error "gemini_model cannot be empty in config"
          else
            Except.ok cfg

/-- The single client option selected by the authentication branch
(activityreport.go:116-136): either `option.WithCredentialsFile` or
`option.WithAPIKey`. -/
inductive AuthMethod where
  | credFile (path : String)
  | apiKey (key : String)
deriving DecidableEq, Repr

/-- Authentication selection (activityreport.go:116-136): config-embedded
credentials file first, then the `GOOGLE_APPLICATION_CREDENTIALS`
environment variable, then the `VERTEX_AI_API_KEY` environment variable;
a Go environment variable that is unset reads as `""`. -/
def selectAuth (cfg : Config) (getenv : String → String) : Except String AuthMethod :=
  if cfg.credentialsFile ≠ "" then
    Except.ok (AuthMethod.credFile cfg.credentialsFile)
  else
    let credentialsPath := getenv credentialsFileEnvVar
    if credentialsPath ≠ "" then
      Except.ok (AuthMethod.credFile credentialsPath)
    else
      let apiKey := getenv apiKeyEnvVar
      if apiKey = "" then
        Except.error ("no authentication method available: neither credentials file specified in config/environment nor " ++ apiKeyEnvVar ++ " env var set")
      else
        Except.ok (AuthMethod.apiKey apiKey)

/-- One part of a genai candidate content: a `genai.Text` or any other
(non-text) part kind. -/
inductive Part where
  | text (s : String)
  | other
deriving DecidableEq, Repr

/-- Candidate content (genai `Content`: a list of parts). -/
structure Content where
  parts : List Part
deriving DecidableEq, Repr

/-- One response candidate; `Content` is a pointer in Go, hence `Option`. -/
structure Candidate where
  content : Option Content
deriving DecidableEq, Repr

/-- genai `GenerateContentResponse`: the list of candidates. -/
structure GenerateContentResponse where
  candidates : List Candidate
deriving DecidableEq, Repr

/-- extractTextFromResponse (activityreport.go:372-390).  The Go argument is
a pointer, modelled as `Option`; the `strings.Builder` accumulation is the
fold accumulator. -/
def extractTextFromResponse (resp : Option GenerateContentResponse) : String :=
  match resp with
  | none => ""
  | some r =>
    r.candidates.foldl (fun acc cand =>
      match cand.content with
      | none => acc
      | some content =>
        content.parts.foldl (fun acc2 part =>
          match part with
          | Part.text s => acc2 ++ s
          | Part.other => acc2) acc) ""

/-- One commit record (Go `CommitLog`, a JSON object map); its fields are
never inspected by the orchestration code, so it is kept abstract as its
raw serialized form. -/
structure CommitLog where
  raw : String
deriving DecidableEq, Repr

/-- One issue record (`gitproviders.Issue`); as with commits the
orchestrator only serializes it, so it is kept abstract. -/
structure Issue where
  raw : String
deriving DecidableEq, Repr

/-- Placeholder written when the input has no commit records
(activityreport.go:147 and 160). -/
def noActivityReport : String := "# Activity Report\n\nNo activity found in the provided logs.\n"

/-- Placeholder written when the final response is nil (activityreport.go:345). -/
def noResponseReport : String := "# Activity Report\n\nNo response generated by AI.\n"

/-- Placeholder substituted when no text could be extracted from the final
response (activityreport.go:355). -/
def extractionErrorReport : String := "# Activity Report\n\nError: Could not extract text content from AI response.\n"

/-- Fuel-bounded worker for the chunking loop
`for i := 0; i < len(logs); i += chunkSize` (activityreport.go:265-270 and
302-307): each iteration takes the slice `logs[i:min(i+C,len)]` and moves on
by `C` elements.  One unit of fuel per produced chunk; since every loop
iteration with `C ≥ 1` consumes at least one element, `l.length` fuel is
enough (see `chunksGoAux_fuel`). -/
def chunksGoAux (fuel C : Nat) (l : List α) : List (List α) :=
  match fuel, l with
  | 0, _ => []
  | _, [] => []
  | fuel + 1, a :: t => ((a :: t).take C) :: chunksGoAux fuel C ((a :: t).drop C)

/-- The chunk sequence produced by the Go chunking loop for step `C ≥ 1`. -/
def chunksGo (C : Nat) (l : List α) : List (List α) :=
  chunksGoAux l.length C l

/-- Loop index of the Go chunking loop after `k` iterations: starts at `0`
and each iteration executes `i += chunkSize` (activityreport.go:265). -/
def chunkLoopIdx (C : Nat) : Nat → Nat
  | 0 => 0
  | k + 1 => chunkLoopIdx C k + C

/-- Total chunk count `int(math.Ceil(float64(N) / float64(C)))`
(activityreport.go:262); for the integer magnitudes involved the float
ceiling is exact and equals `(N + C - 1) / C`. -/
def ceilDiv (N C : Nat) : Nat := (N + C - 1) / C

/-- Observable interactions of `GenerateReport` with its collaborators:
client construction, each conversational turn (tagged with its phase and,
for chunk turns, the chunk payload plus the index and total displayed in
the progress/error messages), and each attempted file write. -/
inductive Event where
  | clientInit (auth : AuthMethod)
  | sendInstruction
  | sendCommitChunk (chunk : List CommitLog) (idx total : Nat)
  | sendIssueTransition
  | sendIssueChunk (chunk : List Issue) (idx total : Nat)
  | sendFinalPrompt
  | fileWrite (path content : String)
deriving DecidableEq, Repr

/-- Backend calls are every event except file writes. -/
def Event.isBackend : Event → Bool
  | Event.fileWrite _ _ => false
  | _ => true

/-- The commit-chunk payload of an event, when it is a commit-chunk turn. -/
def Event.commitChunk : Event → Option (List CommitLog)
  | Event.sendCommitChunk c _ _ => some c
  | _ => none

/-- The issue-chunk payload of an event, when it is an issue-chunk turn. -/
def Event.issueChunk : Event → Option (List Issue)
  | Event.sendIssueChunk c _ _ => some c
  | _ => none

/-- Whether an event belongs to the issue phase (transition or issue chunk). -/
def Event.isIssuePhase : Event → Bool
  | Event.sendIssueTransition => true
  | Event.sendIssueChunk _ _ _ => true
  | _ => false

/-- Oracles for every external collaborator used by `GenerateReport`:
`clean`/`stat`/`readFile`/`yamlParse` for `LoadConfig`, `getenv` for the
environment, `parseLogs` for `json.Unmarshal` of the commit feed,
`marshalLogs`/`marshalIssues` for `json.MarshalIndent` of a chunk,
`clientInit` for `genai.NewClient`, `send n` for the n-th `cs.SendMessage`
of the session (counted from 0; a nil response pointer with a nil error is
`Except.ok none`), and `writeFile` for `os.WriteFile`. -/
structure World where
  clean : String → String
  stat : String → Bool
  readFile : String → Except String String
  yamlParse : String → Except String Config
  getenv : String → String
  parseLogs : String → Except String (List CommitLog)
  marshalLogs : List CommitLog → Except String String
  marshalIssues : List Issue → Except String String
  clientInit : AuthMethod → Except String Unit
  send : Nat → Except String (Option GenerateContentResponse)
  writeFile : String → String → Except String Unit

/-- The commit-chunk loop body (activityreport.go:265-292) applied to the
chunk list produced by `chunksGo`: marshal the chunk, send it as one turn,
abort on the first failure.  `turn` is the session turn counter, `idx` the
1-based chunk number `(i / chunkSize) + 1` displayed in messages, `total`
the precomputed `totalChunks`.  The per-chunk response is only logged by
the Go code, so it is not threaded through. -/
def sendCommitChunks (w : World) (total : Nat) :
    List (List CommitLog) → Nat → Nat → List Event × Nat × Except String Unit
  | [], turn, _ => ([], turn, Except.ok ())
  | chunk :: rest, turn, idx =>
    match w.marshalLogs chunk with
    | Except.error e =>
        ([], turn,
          Except.error ("failed to marshal commit chunk " ++ toString idx ++ "/" ++ toString total ++ " to JSON: " ++ e))
    | Except.ok _ =>
      match w.send turn with
      | Except.error e =>
          ([Event.sendCommitChunk chunk idx total], turn + 1,
            Except.error ("failed to send chunk " ++ toString idx ++ "/" ++ toString total ++ " to Gemini: " ++ e))
      | Except.ok _ =>
        let r := sendCommitChunks w total rest (turn + 1) (idx + 1)
        (Event.sendCommitChunk chunk idx total :: r.1, r.2.1, r.2.2)

/-- The issue-chunk loop body (activityreport.go:302-321); note that the
Go code reuses `totalChunks` — computed from the commit count at
activityreport.go:262 — in the issue-chunk progress and error messages. -/
def sendIssueChunks (w : World) (total : Nat) :
    List (List Issue) → Nat → Nat → List Event × Nat × Except String Unit
  | [], turn, _ => ([], turn, Except.ok ())
  | chunk :: rest, turn, idx =>
    match w.marshalIssues chunk with
    | Except.error e =>
        ([], turn,
          Except.error ("failed to marshal issues chunk " ++ toString idx ++ "/" ++ toString total ++ " to JSON: " ++ e))
    | Except.ok _ =>
      match w.send turn with
      | Except.error e =>
          ([Event.sendIssueChunk chunk idx total], turn + 1,
            Except.error ("failed to send issues chunk " ++ toString idx ++ "/" ++ toString total ++ " to Gemini: " ++ e))
      | Except.ok _ =>
        let r := sendIssueChunks w total rest (turn + 1) (idx + 1)
        (Event.sendIssueChunk chunk idx total :: r.1, r.2.1, r.2.2)

/-- Final prompt, extraction, and report write (activityreport.go:329-368).
When the final response pointer is nil and an output path is supplied, the
placeholder write's error is discarded (`_ =` at activityreport.go:345) and
the call returns successfully; with no output path the nil response falls
through to extraction, which yields `""` and hence the extraction-error
placeholder. -/
def finalPhase (w : World) (outputPath : String) (turn : Nat) :
    List Event × Except String String :=
  match w.send turn with
  | Except.error e =>
      ([Event.sendFinalPrompt], Except.error ("failed to send final prompt to Gemini: " ++ e))
  | Except.ok finalResp =>
    match finalResp with
    | none =>
      if outputPath ≠ "" then
        ([Event.sendFinalPrompt, Event.fileWrite outputPath noResponseReport], Except.ok "")
      else
        ([Event.sendFinalPrompt], Except.ok extractionErrorReport)
    | some r =>
      let extracted := extractTextFromResponse (some r)
      let reportContent := if extracted = "" then extractionErrorReport else extracted
      if outputPath ≠ "" then
        match w.writeFile outputPath reportContent with
        | Except.error we =>
            ([Event.sendFinalPrompt, Event.fileWrite outputPath reportContent],
              Except.error ("failed to write report file " ++ outputPath ++ ": " ++ we))
        | Except.ok _ =>
            ([Event.sendFinalPrompt, Event.fileWrite outputPath reportContent],
              Except.ok reportContent)
      else
        ([Event.sendFinalPrompt], Except.ok reportContent)

/-- The conversational part of `GenerateReport` (activityreport.go:166-368):
client construction, initial instruction prompt, commit-chunk loop,
conditional issue phase (one transition message plus the issue-chunk loop,
only when issues are present), then the final phase. -/
def runConversation (w : World) (cfg : Config) (logs : List CommitLog)
    (issues : List Issue) (outputPath : String) (auth : AuthMethod) :
    List Event × Except String String :=
  match w.clientInit auth with
  | Except.error e =>
      ([Event.clientInit auth], Except.error ("failed to initialize Gemini AI client: " ++ e))
  | Except.ok _ =>
    match w.send 0 with
    | Except.error e =>
        ([Event.clientInit auth, Event.sendInstruction],
          Except.error ("failed to send initial prompt to Gemini: " ++ e))
    | Except.ok _ =>
      let C := cfg.chunkSize.toNat
      let totalChunks := ceilDiv logs.length C
      let rc := sendCommitChunks w totalChunks (chunksGo C logs) 1 1
      let evs0 := Event.clientInit auth :: Event.sendInstruction :: rc.1
      match rc.2.2 with
      | Except.error e => (evs0, Except.error e)
      | Except.ok _ =>
        if issues.length > 0 then
          match w.send rc.2.1 with
          | Except.error e =>
              (evs0 ++ [Event.sendIssueTransition],
                Except.error ("failed to send issues introduction message to Gemini: " ++ e))
          | Except.ok _ =>
            let ri := sendIssueChunks w totalChunks (chunksGo C issues) (rc.2.1 + 1) 1
            let evs1 := evs0 ++ Event.sendIssueTransition :: ri.1
            match ri.2.2 with
            | Except.error e => (evs1, Except.error e)
            | Except.ok _ =>
              let fp := finalPhase w outputPath ri.2.1
              (evs1 ++ fp.1, fp.2)
        else
          let fp := finalPhase w outputPath rc.2.1
          (evs0 ++ fp.1, fp.2)

/-- GenerateReport (activityreport.go:109-369), returning the event trace
together with the Go `(string, error)` result (`Except.error` when the Go
error is non-nil, otherwise `Except.ok` with the returned string).

Faithful control-flow notes:
* the unmarshal-error branch (activityreport.go:141-155) only returns
  successfully when the raw text trims to `"[]"` AND an output path is
  supplied; with no output path even the `"[]"` case falls through to the
  unmarshal error return;
* the parsed-empty branch (activityreport.go:157-164) returns only when an
  output path is supplied, discarding the write error (`_ =` at line 160);
  with no output path the code falls through into the conversation. -/
def GenerateReport (w : World) (gitLogsJSON : String) (issues : List Issue)
    (configPath outputPath : String) : List Event × Except String String :=
  match LoadConfig w.clean w.stat w.readFile w.yamlParse configPath with
  | Except.error e => ([], Except.error ("failed to load configuration: " ++ e))
  | Except.ok cfg =>
    match selectAuth cfg w.getenv with
    | Except.error e => ([], Except.error e)
    | Except.ok auth =>
      match w.parseLogs gitLogsJSON with
      | Except.error e =>
        if gitLogsJSON.trim = "[]" ∧ outputPath ≠ "" then
          match w.writeFile outputPath noActivityReport with
          | Except.error we =>
              ([Event.fileWrite outputPath noActivityReport],
                Except.error ("failed to write empty report file " ++ outputPath ++ ": " ++ we))
          | Except.ok _ =>
              ([Event.fileWrite outputPath noActivityReport], Except.ok "")
        else
          ([], Except.error ("failed to unmarshal git logs JSON: " ++ e))
      | Except.ok logs =>
        if logs.length = 0 ∧ outputPath ≠ "" then
          ([Event.fileWrite outputPath noActivityReport], Except.ok "")
        else
          runConversation w cfg logs issues outputPath auth

/-- The events emitted by a commit-chunk loop that encounters no failure. -/
def commitChunkEvents (total : Nat) : List (List CommitLog) → Nat → List Event
  | [], _ => []
  | c :: rest, idx => Event.sendCommitChunk c idx total :: commitChunkEvents total rest (idx + 1)

/-- The events emitted by an issue-chunk loop that encounters no failure. -/
def issueChunkEvents (total : Nat) : List (List Issue) → Nat → List Event
  | [], _ => []
  | c :: rest, idx => Event.sendIssueChunk c idx total :: issueChunkEvents total rest (idx + 1)

/-- Session turn index at which the final synthesis prompt is sent when
every earlier turn succeeded: instruction (turn 0), one turn per commit
chunk, then — only when issues are present — one transition turn and one
turn per issue chunk. -/
def finalTurn (C : Nat) (logs : List CommitLog) (issues : List Issue) : Nat :=
  if 0 < issues.length then
    1 + (chunksGo C logs).length + 1 + (chunksGo C issues).length
  else
    1 + (chunksGo C logs).length

/-- Report text computed from the final response at
activityreport.go:352-356: the extracted text, or the extraction-error
placeholder when it is empty. -/
def reportOf (r : GenerateContentResponse) : String :=
  if extractTextFromResponse (some r) = "" then extractionErrorReport
  else extractTextFromResponse (some r)

/-- The content of an event, when it is a file write. -/
def Event.writeContent : Event → Option String
  | Event.fileWrite _ content => some content
  | _ => none

/-- Spec-side view of one part: its text, `none` for non-text parts. -/
def partText : Part → Option String
  | Part.text s => some s
  | Part.other => none

/-- Spec-side view of one candidate: its text parts in order; an absent
content contributes nothing. -/
def candidateTexts (cand : Candidate) : List String :=
  match cand.content with
  | none => []
  | some content => content.parts.filterMap partText

/-- Spec-side view of a response: every text part of every candidate, in
order. -/
def responseTexts (r : GenerateContentResponse) : List String :=
  (r.candidates.map candidateTexts).flatten

/-- In-order concatenation of a list of strings. -/
def strConcat : List String → String
  | [] => ""
  | s :: rest => s ++ strConcat rest

deriving instance DecidableEq for Except

/-! Concrete instances used to evaluate the model on specific inputs. -/

/-- A valid configuration with chunk size 2 and a config-embedded
credentials file. -/
def cfgA : Config :=
  { chunkSize := 2, projectID := "proj", location := "loc", geminiModel := "gem",
    credentialsFile := "creds.json" }

/-- A valid configuration with chunk size 1. -/
def cfgB : Config := { cfgA with chunkSize := 1 }

/-- A valid configuration with chunk size 100. -/
def cfgC : Config := { cfgA with chunkSize := 100 }

/-- A response carrying a single text part. -/
def respOf (s : String) : GenerateContentResponse :=
  { candidates := [{ content := some { parts := [Part.text s] } }] }

/-- A world in which every collaborator succeeds: the config source parses
to `cfg`, the commit feed parses to `logs`, every model turn answers
`resp`, and writes succeed. -/
def baseWorld (cfg : Config) (logs : List CommitLog)
    (resp : Option GenerateContentResponse) : World :=
  { clean := fun p => p
    stat := fun _ => true
    readFile := fun _ => Except.ok "yaml"
    yamlParse := fun _ => Except.ok cfg
    getenv := fun _ => ""
    parseLogs := fun _ => Except.ok logs
    marshalLogs := fun _ => Except.ok "[]"
    marshalIssues := fun _ => Except.ok "[]"
    clientInit := fun _ => Except.ok ()
    send := fun _ => Except.ok resp
    writeFile := fun _ _ => Except.ok () }

/-- World whose commit feed parses to zero records and whose model always
answers with the text `AI REPORT`. -/
def w1 : World := baseWorld cfgA [] (some (respOf "AI REPORT"))

/-- 250 identical commit records. -/
def logs250 : List CommitLog := List.replicate 250 { raw := "c" }

/-- World whose commit feed parses to 250 records under chunk size 100. -/
def w2 : World := baseWorld cfgC logs250 (some (respOf "AI REPORT"))

/-- World whose model answers every turn with a response that has zero
candidates (no extractable text). -/
def w3 : World :=
  baseWorld cfgA [{ raw := "a" }] (some { candidates := [] })

/-- Environment with all three credential sources set. -/
def envAll : String → String := fun v =>
  if v = credentialsFileEnvVar then "/env/creds.json"
  else if v = apiKeyEnvVar then "SECRETKEY" else ""

/-- Environment with only the credentials-file variable and the API key. -/
def envFileKey : String → String := envAll

/-- Environment with only the API key set. -/
def envKeyOnly : String → String := fun v =>
  if v = apiKeyEnvVar then "SECRETKEY" else ""

/-- Environment with no credential variables set. -/
def envNone : String → String := fun _ => ""

/-- `cfgA` without a config-embedded credentials file. -/
def cfgNoCred : Config := { cfgA with credentialsFile := "" }

/-- World with chunk size 1, one commit record, and a model that fails on
session turn 4 — which, with three single-issue chunks, is the second
issue chunk (turn 0 instruction, turn 1 the commit chunk, turn 2 the
transition, turns 3-5 the issue chunks). -/
def w5 : World :=
  { baseWorld cfgB [{ raw := "a" }] (some (respOf "ok")) with
    send := fun n => if n = 4 then Except.error "boom" else Except.ok (some (respOf "ok")) }

/-- Three issue records. -/
def issues3 : List Issue := [{ raw := "i1" }, { raw := "i2" }, { raw := "i3" }]

/-- World whose commit feed parses to zero records and whose destination
writes always fail. -/
def w6 : World :=
  { baseWorld cfgA [] (some (respOf "AI REPORT")) with
    writeFile := fun _ _ => Except.error "disk full" }

/-- World with three commit records under chunk size 2. -/
def w8 : World := baseWorld cfgA [{ raw := "a" }, { raw := "b" }, { raw := "c" }] (some (respOf "R"))

/-! Chunking algebra: the chunk list produced by the Go loop. -/

theorem chunksGoAux_nil (fuel C : Nat) : chunksGoAux fuel C ([] : List α) = [] := by
  cases fuel <;> rfl

theorem chunksGo_nil (C : Nat) : chunksGo C ([] : List α) = [] := rfl

theorem chunksGoAux_congr {C : Nat} (hC : 0 < C) :
    ∀ f1 f2 (l : List α), l.length ≤ f1 → l.length ≤ f2 →
      chunksGoAux f1 C l = chunksGoAux f2 C l := by
  intro f1
  induction f1 with
  | zero =>
    intro f2 l h1 _
    have hl : l = [] := List.eq_nil_of_length_eq_zero (Nat.le_zero.mp h1)
    subst hl
    simp [chunksGoAux_nil]
  | succ f ih =>
    intro f2 l h1 h2
    cases l with
    | nil => simp [chunksGoAux_nil]
    | cons a t =>
      cases f2 with
      | zero => simp at h2
      | succ g =>
        simp only [chunksGoAux]
        congr 1
        apply ih
        · rw [List.length_drop]
          simp only [List.length_cons] at h1 ⊢
          omega
        · rw [List.length_drop]
          simp only [List.length_cons] at h2 ⊢
          omega

theorem chunksGo_cons {C : Nat} (hC : 0 < C) (a : α) (t : List α) :
    chunksGo C (a :: t) = ((a :: t).take C) :: chunksGo C ((a :: t).drop C) := by
  show chunksGoAux (a :: t).length C (a :: t) = _
  simp only [List.length_cons, chunksGoAux]
  congr 1
  apply chunksGoAux_congr hC
  · rw [List.length_drop]
    simp only [List.length_cons]
    omega
  · exact Nat.le_refl _

theorem chunksGo_flatten {C : Nat} (hC : 0 < C) :
    ∀ (l : List α), (chunksGo C l).flatten = l
  | [] => by simp [chunksGo_nil]
  | a :: t => by
    rw [chunksGo_cons hC]
    simp only [List.flatten_cons]
    rw [chunksGo_flatten hC ((a :: t).drop C)]
    exact List.take_append_drop C (a :: t)
termination_by l => l.length
decreasing_by
  rw [List.length_drop]
  simp only [List.length_cons]
  omega

theorem ceilDiv_zero_left {C : Nat} (hC : 0 < C) : ceilDiv 0 C = 0 := by
  unfold ceilDiv
  exact Nat.div_eq_of_lt (by omega)

theorem ceilDiv_pos {C N : Nat} (hC : 0 < C) (hN : 0 < N) : 0 < ceilDiv N C := by
  unfold ceilDiv
  exact (Nat.le_div_iff_mul_le hC).mpr (by omega)

theorem ceilDiv_succ_step {C : Nat} (hC : 0 < C) (N : Nat) (hN : 0 < N) :
    ceilDiv (N - C) C + 1 = ceilDiv N C := by
  rcases Nat.le_total N C with h | h
  · rw [Nat.sub_eq_zero_of_le h, ceilDiv_zero_left hC]
    unfold ceilDiv
    have h1 : N + C - 1 = (N - 1) + C := by omega
    rw [h1, Nat.add_div_right _ hC, Nat.div_eq_of_lt (by omega)]
  · unfold ceilDiv
    have h1 : N + C - 1 = ((N - C) + C - 1) + C := by omega
    rw [h1, Nat.add_div_right _ hC]

theorem chunksGo_length {C : Nat} (hC : 0 < C) :
    ∀ (l : List α), (chunksGo C l).length = ceilDiv l.length C
  | [] => by simp [chunksGo_nil, ceilDiv_zero_left hC]
  | a :: t => by
    rw [chunksGo_cons hC]
    simp only [List.length_cons]
    rw [chunksGo_length hC ((a :: t).drop C), List.length_drop]
    exact ceilDiv_succ_step hC (a :: t).length (by simp)
termination_by l => l.length
decreasing_by
  rw [List.length_drop]
  simp only [List.length_cons]
  omega

theorem chunksGo_map_length {C : Nat} (hC : 0 < C) :
    ∀ (l : List α), l ≠ [] →
      (chunksGo C l).map List.length =
        List.replicate (ceilDiv l.length C - 1) C ++
          [if l.length % C = 0 then C else l.length % C]
  | [], h => absurd rfl h
  | a :: t, _ => by
    rw [chunksGo_cons hC]
    rcases Nat.le_total (a :: t).length C with hle | hle
    · rw [List.drop_eq_nil_of_le hle, chunksGo_nil]
      simp only [List.map_cons, List.map_nil]
      rw [List.take_of_length_le hle]
      have h1 : ceilDiv (a :: t).length C = 1 := by
        have h2 := ceilDiv_succ_step hC (a :: t).length (by simp)
        rw [Nat.sub_eq_zero_of_le hle, ceilDiv_zero_left hC] at h2
        omega
      rw [h1]
      simp only [Nat.sub_self, List.replicate_zero, List.nil_append]
      rcases Nat.lt_or_ge (a :: t).length C with hlt | hge
      · rw [if_neg, Nat.mod_eq_of_lt hlt]
        rw [Nat.mod_eq_of_lt hlt]
        simp
      · have heq : (a :: t).length = C := Nat.le_antisymm hle hge
        rw [heq, Nat.mod_self, if_pos rfl]
    · have hlt : C < (a :: t).length ∨ C = (a :: t).length := Nat.lt_or_eq_of_le hle
      rcases hlt with hlt | heq
      · have hdrop_ne : (a :: t).drop C ≠ [] := by
          intro hnil
          have := congrArg List.length hnil
          rw [List.length_drop] at this
          simp only [List.length_nil] at this
          omega
        simp only [List.map_cons]
        rw [chunksGo_map_length hC ((a :: t).drop C) hdrop_ne]
        rw [List.length_take, List.length_drop]
        have hmin : min C (a :: t).length = C := Nat.min_eq_left hle
        rw [hmin]
        have hmod : ((a :: t).length - C) % C = (a :: t).length % C := by
          conv_rhs => rw [← Nat.sub_add_cancel (Nat.le_of_lt hlt)]
          rw [Nat.add_mod_right]
        have hceil : ceilDiv (a :: t).length C = ceilDiv ((a :: t).length - C) C + 1 :=
          (ceilDiv_succ_step hC (a :: t).length (by simp)).symm
        have hpos : 0 < ceilDiv ((a :: t).length - C) C := ceilDiv_pos hC (by omega)
        rw [hmod, hceil, Nat.add_sub_cancel]
        conv_rhs => rw [show ceilDiv ((a :: t).length - C) C
          = (ceilDiv ((a :: t).length - C) C - 1) + 1 by omega]
        rw [List.replicate_succ]
        simp [List.cons_append]
      · -- boundary case length = C handled by the first branch; rederive it
        have hle2 : (a :: t).length ≤ C := Nat.le_of_eq heq.symm
        rw [List.drop_eq_nil_of_le hle2, chunksGo_nil]
        simp only [List.map_cons, List.map_nil]
        rw [List.take_of_length_le hle2]
        have h1 : ceilDiv (a :: t).length C = 1 := by
          have h2 := ceilDiv_succ_step hC (a :: t).length (by simp)
          rw [Nat.sub_eq_zero_of_le hle2, ceilDiv_zero_left hC] at h2
          omega
        rw [h1]
        simp only [Nat.sub_self, List.replicate_zero, List.nil_append]
        rw [← heq, Nat.mod_self, if_pos rfl]
termination_by l => l.length
decreasing_by
  rw [List.length_drop]
  simp only [List.length_cons]
  omega

theorem chunkLoopIdx_eq (C k : Nat) : chunkLoopIdx C k = k * C := by
  induction k with
  | zero => simp [chunkLoopIdx]
  | succ n ih => simp [chunkLoopIdx, ih, Nat.succ_mul]

/-- The Go loop guard `i < N` after `k` iterations holds exactly for the
first `ceil(N/C)` iterations, for positive step `C`. -/
theorem chunkLoopIdx_lt_iff {C : Nat} (hC : 0 < C) (N k : Nat) :
    chunkLoopIdx C k < N ↔ k < ceilDiv N C := by
  rw [chunkLoopIdx_eq]
  have key : ceilDiv N C ≤ k ↔ N ≤ C * k := by
    rw [show ceilDiv N C = N ⌈/⌉ C from (Nat.ceilDiv_eq_add_pred_div N C).symm]
    exact ceilDiv_le_iff_le_mul hC
  constructor
  · intro h
    by_contra hk
    push_neg at hk
    have h2 := key.mp hk
    rw [Nat.mul_comm] at h
    exact absurd (Nat.lt_of_le_of_lt h2 h) (Nat.lt_irrefl N)
  · intro h
    by_contra hN
    push_neg at hN
    have h2 : ceilDiv N C ≤ k := key.mpr (by rwa [Nat.mul_comm] at hN)
    omega

/-! Extraction: the builder folds equal the flat in-order concatenation. -/

theorem strConcat_append : ∀ (l1 l2 : List String),
    strConcat (l1 ++ l2) = strConcat l1 ++ strConcat l2
  | [], l2 => by simp [strConcat]
  | s :: rest, l2 => by
    simp [strConcat, strConcat_append rest l2, String.append_assoc]

theorem foldl_parts_eq (parts : List Part) :
    ∀ acc : String,
      parts.foldl (fun acc2 part =>
        match part with
        | Part.text s => acc2 ++ s
        | Part.other => acc2) acc = acc ++ strConcat (parts.filterMap partText) := by
  induction parts with
  | nil => intro acc; simp [strConcat]
  | cons p rest ih =>
    intro acc
    cases p with
    | text s =>
      simp only [List.foldl_cons, List.filterMap_cons, partText, strConcat, ih,
        String.append_assoc]
    | other =>
      simp only [List.foldl_cons, List.filterMap_cons, partText, ih]

theorem foldl_candidates_eq (cands : List Candidate) :
    ∀ acc : String,
      cands.foldl (fun acc cand =>
        match cand.content with
        | none => acc
        | some content =>
          content.parts.foldl (fun acc2 part =>
            match part with
            | Part.text s => acc2 ++ s
            | Part.other => acc2) acc) acc
      = acc ++ strConcat ((cands.map candidateTexts).flatten) := by
  induction cands with
  | nil => intro acc; simp [strConcat]
  | cons c rest ih =>
    intro acc
    cases hc : c.content with
    | none =>
      have hct : candidateTexts c = [] := by simp [candidateTexts, hc]
      simp only [List.foldl_cons, hc, List.map_cons, List.flatten_cons, hct,
        List.nil_append, ih]
    | some content =>
      have hct : candidateTexts c = content.parts.filterMap partText := by
        simp [candidateTexts, hc]
      simp only [List.foldl_cons, hc, List.map_cons, List.flatten_cons, hct]
      rw [foldl_parts_eq, ih, strConcat_append, String.append_assoc]

theorem extract_eq_strConcat (r : GenerateContentResponse) :
    extractTextFromResponse (some r) = strConcat (responseTexts r) := by
  simp only [extractTextFromResponse, responseTexts]
  rw [foldl_candidates_eq]
  simp

/-! Run-shape helpers shared by the per-claim theorems. -/

theorem sendCommitChunks_ok_pre (w : World) (total : Nat)
    (hm : ∀ c, ∃ s, w.marshalLogs c = Except.ok s) :
    ∀ (chunks : List (List CommitLog)) (turn idx : Nat),
      (∀ k, k < chunks.length → ∃ r, w.send (turn + k) = Except.ok r) →
      sendCommitChunks w total chunks turn idx =
        (commitChunkEvents total chunks idx, turn + chunks.length, Except.ok ()) := by
  intro chunks
  induction chunks with
  | nil => intro turn idx _; simp [sendCommitChunks, commitChunkEvents]
  | cons c rest ih =>
    intro turn idx hs
    obtain ⟨s, hsm⟩ := hm c
    obtain ⟨r, hr⟩ := hs 0 (by simp)
    rw [Nat.add_zero] at hr
    have hrest : ∀ k, k < rest.length → ∃ r0, w.send (turn + 1 + k) = Except.ok r0 := by
      intro k hk
      have h2 := hs (k + 1) (by simp only [List.length_cons]; omega)
      rwa [show turn + (k + 1) = turn + 1 + k by omega] at h2
    simp only [sendCommitChunks, hsm, hr, ih (turn + 1) (idx + 1) hrest, commitChunkEvents,
      List.length_cons]
    have harith : turn + 1 + rest.length = turn + (rest.length + 1) := by omega
    rw [harith]

theorem GenerateReport_eq_run (w : World) (gitLogsJSON configPath outputPath : String)
    (issues : List Issue) (cfg : Config) (auth : AuthMethod) (logs : List CommitLog)
    (hcfg : LoadConfig w.clean w.stat w.readFile w.yamlParse configPath = Except.ok cfg)
    (hauth : selectAuth cfg w.getenv = Except.ok auth)
    (hparse : w.parseLogs gitLogsJSON = Except.ok logs)
    (hne : logs ≠ []) :
    GenerateReport w gitLogsJSON issues configPath outputPath =
      runConversation w cfg logs issues outputPath auth := by
  have hcond : ¬(logs.length = 0 ∧ outputPath ≠ "") := by
    rintro ⟨h1, _⟩
    exact hne (List.eq_nil_of_length_eq_zero h1)
  simp only [GenerateReport, hcfg, hauth, hparse, if_neg hcond]

theorem runConversation_transition_error (w : World) (cfg : Config)
    (logs : List CommitLog) (issues : List Issue) (outputPath : String)
    (auth : AuthMethod) (e : String)
    (hclient : w.clientInit auth = Except.ok ())
    (hm : ∀ c, ∃ s, w.marshalLogs c = Except.ok s)
    (hs : ∀ k, k < 1 + (chunksGo cfg.chunkSize.toNat logs).length →
      ∃ r0, w.send k = Except.ok r0)
    (hiss : 0 < issues.length)
    (herr : w.send (1 + (chunksGo cfg.chunkSize.toNat logs).length) = Except.error e) :
    (runConversation w cfg logs issues outputPath auth).2 =
      Except.error ("failed to send issues introduction message to Gemini: " ++ e) := by
  obtain ⟨r0, h0⟩ := hs 0 (by omega)
  have hcommit : ∀ k, k < (chunksGo cfg.chunkSize.toNat logs).length →
      ∃ r1, w.send (1 + k) = Except.ok r1 := by
    intro k hk
    exact hs (1 + k) (by omega)
  simp only [runConversation, hclient, h0,
    sendCommitChunks_ok_pre w _ hm _ 1 1 hcommit]
  simp only [gt_iff_lt, hiss, if_pos hiss, herr]
  simp

theorem runConversation_issue_loop_error (w : World) (cfg : Config)
    (logs : List CommitLog) (issues : List Issue) (outputPath : String)
    (auth : AuthMethod) (e : String)
    (hclient : w.clientInit auth = Except.ok ())
    (hm : ∀ c, ∃ s, w.marshalLogs c = Except.ok s)
    (hs : ∀ k, k < 1 + (chunksGo cfg.chunkSize.toNat logs).length →
      ∃ r0, w.send k = Except.ok r0)
    (hiss : 0 < issues.length)
    (htrans : ∃ r0, w.send (1 + (chunksGo cfg.chunkSize.toNat logs).length) = Except.ok r0)
    (herr : (sendIssueChunks w (ceilDiv logs.length cfg.chunkSize.toNat)
        (chunksGo cfg.chunkSize.toNat issues)
        (1 + (chunksGo cfg.chunkSize.toNat logs).length + 1) 1).2.2 = Except.error e) :
    (runConversation w cfg logs issues outputPath auth).2 = Except.error e := by
  obtain ⟨r0, h0⟩ := hs 0 (by omega)
  obtain ⟨rt, ht⟩ := htrans
  have hcommit : ∀ k, k < (chunksGo cfg.chunkSize.toNat logs).length →
      ∃ r1, w.send (1 + k) = Except.ok r1 := by
    intro k hk
    exact hs (1 + k) (by omega)
  simp only [runConversation, hclient, h0,
    sendCommitChunks_ok_pre w _ hm _ 1 1 hcommit]
  simp only [gt_iff_lt, hiss, if_pos hiss, ht]
  rw [herr]
  simp

/-! Shape of the event trace on runs where the collaborators succeed. -/

theorem sendCommitChunks_ok (w : World) (total : Nat)
    (hm : ∀ c, ∃ s, w.marshalLogs c = Except.ok s)
    (hs : ∀ n, ∃ r, w.send n = Except.ok r) :
    ∀ (chunks : List (List CommitLog)) (turn idx : Nat),
      sendCommitChunks w total chunks turn idx =
        (commitChunkEvents total chunks idx, turn + chunks.length, Except.ok ()) := by
  intro chunks
  induction chunks with
  | nil => intro turn idx; simp [sendCommitChunks, commitChunkEvents]
  | cons c rest ih =>
    intro turn idx
    obtain ⟨s, hsm⟩ := hm c
    obtain ⟨r, hr⟩ := hs turn
    simp only [sendCommitChunks, hsm, hr, ih (turn + 1) (idx + 1), commitChunkEvents,
      List.length_cons]
    have harith : turn + 1 + rest.length = turn + (rest.length + 1) := by omega
    rw [harith]

theorem sendIssueChunks_ok (w : World) (total : Nat)
    (hm : ∀ c, ∃ s, w.marshalIssues c = Except.ok s)
    (hs : ∀ n, ∃ r, w.send n = Except.ok r) :
    ∀ (chunks : List (List Issue)) (turn idx : Nat),
      sendIssueChunks w total chunks turn idx =
        (issueChunkEvents total chunks idx, turn + chunks.length, Except.ok ()) := by
  intro chunks
  induction chunks with
  | nil => intro turn idx; simp [sendIssueChunks, issueChunkEvents]
  | cons c rest ih =>
    intro turn idx
    obtain ⟨s, hsm⟩ := hm c
    obtain ⟨r, hr⟩ := hs turn
    simp only [sendIssueChunks, hsm, hr, ih (turn + 1) (idx + 1), issueChunkEvents,
      List.length_cons]
    have harith : turn + 1 + rest.length = turn + (rest.length + 1) := by omega
    rw [harith]

theorem commitChunkEvents_filterMap (total : Nat) :
    ∀ (chunks : List (List CommitLog)) (idx : Nat),
      (commitChunkEvents total chunks idx).filterMap Event.commitChunk = chunks := by
  intro chunks
  induction chunks with
  | nil => intro idx; rfl
  | cons c rest ih =>
    intro idx
    simp [commitChunkEvents, List.filterMap_cons, Event.commitChunk, ih (idx + 1)]

theorem issueChunkEvents_filterMap (total : Nat) :
    ∀ (chunks : List (List Issue)) (idx : Nat),
      (issueChunkEvents total chunks idx).filterMap Event.issueChunk = chunks := by
  intro chunks
  induction chunks with
  | nil => intro idx; rfl
  | cons c rest ih =>
    intro idx
    simp [issueChunkEvents, List.filterMap_cons, Event.issueChunk, ih (idx + 1)]

theorem commitChunkEvents_no_issueChunk (total : Nat) :
    ∀ (chunks : List (List CommitLog)) (idx : Nat),
      (commitChunkEvents total chunks idx).filterMap Event.issueChunk = [] := by
  intro chunks
  induction chunks with
  | nil => intro idx; rfl
  | cons c rest ih =>
    intro idx
    simp [commitChunkEvents, List.filterMap_cons, Event.issueChunk, ih (idx + 1)]

theorem issueChunkEvents_no_commitChunk (total : Nat) :
    ∀ (chunks : List (List Issue)) (idx : Nat),
      (issueChunkEvents total chunks idx).filterMap Event.commitChunk = [] := by
  intro chunks
  induction chunks with
  | nil => intro idx; rfl
  | cons c rest ih =>
    intro idx
    simp [issueChunkEvents, List.filterMap_cons, Event.commitChunk, ih (idx + 1)]

theorem commitChunkEvents_not_issuePhase (total : Nat) :
    ∀ (chunks : List (List CommitLog)) (idx : Nat),
      (commitChunkEvents total chunks idx).filter Event.isIssuePhase = [] := by
  intro chunks
  induction chunks with
  | nil => intro idx; rfl
  | cons c rest ih =>
    intro idx
    simp [commitChunkEvents, List.filter_cons, Event.isIssuePhase, ih (idx + 1)]

theorem issueChunkEvents_issuePhase (total : Nat) :
    ∀ (chunks : List (List Issue)) (idx : Nat),
      (issueChunkEvents total chunks idx).filter Event.isIssuePhase =
        issueChunkEvents total chunks idx := by
  intro chunks
  induction chunks with
  | nil => intro idx; rfl
  | cons c rest ih =>
    intro idx
    simp [issueChunkEvents, List.filter_cons, Event.isIssuePhase, ih (idx + 1)]

theorem finalPhase_some (w : World) (outputPath : String) (turn : Nat)
    (r : GenerateContentResponse)
    (hfr : w.send turn = Except.ok (some r))
    (hwr : ∀ p c, w.writeFile p c = Except.ok ()) :
    finalPhase w outputPath turn =
      (Event.sendFinalPrompt ::
         (if outputPath ≠ "" then [Event.fileWrite outputPath (reportOf r)] else []),
       Except.ok (reportOf r)) := by
  by_cases hout : outputPath = ""
  · simp [finalPhase, hfr, hout, reportOf]
  · simp [finalPhase, hfr, hout, hwr, reportOf]

/-- Trace and result of the conversational phase when client construction,
marshalling, every send, and every write succeed, with the final response
being `some r`. -/
theorem runConversation_ok (w : World) (cfg : Config) (logs : List CommitLog)
    (issues : List Issue) (outputPath : String) (auth : AuthMethod)
    (r : GenerateContentResponse)
    (hclient : w.clientInit auth = Except.ok ())
    (hm : ∀ c, ∃ s, w.marshalLogs c = Except.ok s)
    (hmi : ∀ c, ∃ s, w.marshalIssues c = Except.ok s)
    (hs : ∀ n, ∃ r0, w.send n = Except.ok r0)
    (hfr : w.send (finalTurn cfg.chunkSize.toNat logs issues) = Except.ok (some r))
    (hwr : ∀ p c, w.writeFile p c = Except.ok ()) :
    runConversation w cfg logs issues outputPath auth =
      (Event.clientInit auth :: Event.sendInstruction ::
        (commitChunkEvents (ceilDiv logs.length cfg.chunkSize.toNat)
            (chunksGo cfg.chunkSize.toNat logs) 1 ++
          (if 0 < issues.length then
            Event.sendIssueTransition ::
              issueChunkEvents (ceilDiv logs.length cfg.chunkSize.toNat)
                (chunksGo cfg.chunkSize.toNat issues) 1
          else []) ++
          (Event.sendFinalPrompt ::
            (if outputPath ≠ "" then [Event.fileWrite outputPath (reportOf r)] else []))),
       Except.ok (reportOf r)) := by
  obtain ⟨r0, h0⟩ := hs 0
  by_cases hiss : 0 < issues.length
  · have hft : finalTurn cfg.chunkSize.toNat logs issues =
        1 + (chunksGo cfg.chunkSize.toNat logs).length + 1 +
          (chunksGo cfg.chunkSize.toNat issues).length := by
      simp [finalTurn, hiss]
    obtain ⟨rt, ht⟩ := hs (1 + (chunksGo cfg.chunkSize.toNat logs).length)
    simp only [runConversation, hclient, h0,
      sendCommitChunks_ok w _ hm hs _ 1 1,
      sendIssueChunks_ok w _ hmi hs _ _ 1]
    rw [hft] at hfr
    simp only [hiss, if_pos hiss, ht,
      finalPhase_some w outputPath _ r (by
        have : 1 + (chunksGo cfg.chunkSize.toNat logs).length + 1 +
            (chunksGo cfg.chunkSize.toNat issues).length =
            1 + (chunksGo cfg.chunkSize.toNat logs).length + 1 +
              (chunksGo cfg.chunkSize.toNat issues).length := rfl
        exact hfr) hwr]
    simp [List.append_assoc]
  · have hft : finalTurn cfg.chunkSize.toNat logs issues =
        1 + (chunksGo cfg.chunkSize.toNat logs).length := by
      simp [finalTurn, hiss]
    simp only [runConversation, hclient, h0,
      sendCommitChunks_ok w _ hm hs _ 1 1]
    rw [hft] at hfr
    simp only [hiss, if_neg hiss,
      finalPhase_some w outputPath _ r hfr hwr]
    simp [List.append_assoc, hiss]



theorem commitChunkEvents_no_write (total : Nat) :
    ∀ (chunks : List (List CommitLog)) (idx : Nat),
      (commitChunkEvents total chunks idx).filterMap Event.writeContent = [] := by
  intro chunks
  induction chunks with
  | nil => intro idx; rfl
  | cons c rest ih =>
    intro idx
    simp [commitChunkEvents, List.filterMap_cons, Event.writeContent, ih (idx + 1)]

theorem issueChunkEvents_no_write (total : Nat) :
    ∀ (chunks : List (List Issue)) (idx : Nat),
      (issueChunkEvents total chunks idx).filterMap Event.writeContent = [] := by
  intro chunks
  induction chunks with
  | nil => intro idx; rfl
  | cons c rest ih =>
    intro idx
    simp [issueChunkEvents, List.filterMap_cons, Event.writeContent, ih (idx + 1)]

theorem LoadConfig_ok_chunkSize (clean : String → String) (stat : String → Bool)
    (readFile : String → Except String String) (yamlParse : String → Except String Config)
    (configPath : String) (cfg : Config)
    (h : LoadConfig clean stat readFile yamlParse configPath = Except.ok cfg) :
    0 < cfg.chunkSize.toNat := by
  simp only [LoadConfig] at h
  split at h
  · exact absurd h (by simp)
  · split at h
    · exact absurd h (by simp)
    · split at h
      · exact absurd h (by simp)
      · split at h
        · exact absurd h (by simp)
        · split at h
          · exact absurd h (by simp)
          · split at h
            · exact absurd h (by simp)
            · split at h
              · exact absurd h (by simp)
              · split at h
                · exact absurd h (by simp)
                · next h1 h2 h3 h4 =>
                    simp only [Except.ok.injEq] at h
                    subst h
                    omega

/-! Per-claim theorems. -/

/-- Claim C9: `extractTextFromResponse` is total over all response shapes
and never errors: it returns the empty string for a nil response, a
response with zero candidates, and a response whose candidates all have
nil content; for any response it returns the in-order concatenation of
exactly the text-typed parts of every candidate, silently skipping
non-text parts interleaved among them. -/
theorem C9_extraction_tolerance :
    extractTextFromResponse none = ""
  ∧ extractTextFromResponse (some { candidates := [] }) = ""
  ∧ (∀ cands : List Candidate, (∀ c ∈ cands, c.content = none) →
      extractTextFromResponse (some { candidates := cands }) = "")
  ∧ (∀ r : GenerateContentResponse,
      extractTextFromResponse (some r) = strConcat (responseTexts r)) := by
  refine ⟨rfl, rfl, ?_, extract_eq_strConcat⟩
  intro cands hc
  rw [extract_eq_strConcat]
  have h2 : responseTexts { candidates := cands } = [] := by
    simp only [responseTexts]
    induction cands with
    | nil => rfl
    | cons c rest ih =>
      have hcc : candidateTexts c = [] := by
        simp [candidateTexts, hc c (by simp)]
      simp only [List.map_cons, List.flatten_cons, hcc, List.nil_append]
      exact ih (fun c2 hc2 => hc c2 (by simp [hc2]))
  rw [h2]
  rfl

/-- Witness for C9: concrete degenerate and interleaved-parts inputs. -/
theorem C9_extraction_tolerance_witness :
    extractTextFromResponse (some { candidates := [{ content := none }] }) = ""
  ∧ extractTextFromResponse (some { candidates :=
      [{ content := some { parts := [Part.other, Part.text "A", Part.other, Part.text "B"] } }] })
    = strConcat (responseTexts { candidates :=
      [{ content := some { parts := [Part.other, Part.text "A", Part.other, Part.text "B"] } }] }) :=
  ⟨C9_extraction_tolerance.2.2.1 [{ content := none }] (by decide),
   C9_extraction_tolerance.2.2.2 _⟩

/-- Claim C4: authentication selection follows strict precedence — the
config-embedded credentials file, then the credentials-file environment
variable, then the API-key environment variable, else `GenerateReport`
fails with an error naming the API-key environment variable; a
lower-priority source is never consulted when a higher one is present. -/
theorem C4_auth_precedence (cfg : Config) (env : String → String) :
    (cfg.credentialsFile ≠ "" →
      selectAuth cfg env = Except.ok (AuthMethod.credFile cfg.credentialsFile))
  ∧ (cfg.credentialsFile = "" → env credentialsFileEnvVar ≠ "" →
      selectAuth cfg env = Except.ok (AuthMethod.credFile (env credentialsFileEnvVar)))
  ∧ (cfg.credentialsFile = "" → env credentialsFileEnvVar = "" → env apiKeyEnvVar ≠ "" →
      selectAuth cfg env = Except.ok (AuthMethod.apiKey (env apiKeyEnvVar)))
  ∧ (cfg.credentialsFile = "" → env credentialsFileEnvVar = "" → env apiKeyEnvVar = "" →
      selectAuth cfg env = Except.error
        ("no authentication method available: neither credentials file specified in config/environment nor " ++ apiKeyEnvVar ++ " env var set"))
  ∧ (∀ (w : World) (gitLogsJSON configPath outputPath : String) (issues : List Issue),
      LoadConfig w.clean w.stat w.readFile w.yamlParse configPath = Except.ok cfg →
      w.getenv = env →
      cfg.credentialsFile = "" → env credentialsFileEnvVar = "" → env apiKeyEnvVar = "" →
      GenerateReport w gitLogsJSON issues configPath outputPath =
        ([], Except.error
          ("no authentication method available: neither credentials file specified in config/environment nor " ++ apiKeyEnvVar ++ " env var set"))) := by
  refine ⟨?_, ?_, ?_, ?_, ?_⟩
  · intro h
    simp [selectAuth, h]
  · intro h1 h2
    simp [selectAuth, h1, h2]
  · intro h1 h2 h3
    simp [selectAuth, h1, h2, h3]
  · intro h1 h2 h3
    simp [selectAuth, h1, h2, h3]
  · intro w gj cp op iss hcfg henv h1 h2 h3
    have hsel : selectAuth cfg w.getenv = Except.error
        ("no authentication method available: neither credentials file specified in config/environment nor " ++ apiKeyEnvVar ++ " env var set") := by
      rw [henv]
      simp [selectAuth, h1, h2, h3]
    simp [GenerateReport, hcfg, hsel]

/-- Witness for C4: each precedence case at a concrete configuration and
environment. -/
theorem C4_auth_precedence_witness :
    selectAuth cfgA envAll = Except.ok (AuthMethod.credFile cfgA.credentialsFile)
  ∧ selectAuth cfgNoCred envAll = Except.ok (AuthMethod.credFile (envAll credentialsFileEnvVar))
  ∧ selectAuth cfgNoCred envKeyOnly = Except.ok (AuthMethod.apiKey (envKeyOnly apiKeyEnvVar))
  ∧ selectAuth cfgNoCred envNone = Except.error
      ("no authentication method available: neither credentials file specified in config/environment nor " ++ apiKeyEnvVar ++ " env var set") :=
  ⟨(C4_auth_precedence cfgA envAll).1 (by decide),
   (C4_auth_precedence cfgNoCred envAll).2.1 (by decide) (by decide),
   (C4_auth_precedence cfgNoCred envKeyOnly).2.2.1 (by decide) (by decide) (by decide),
   (C4_auth_precedence cfgNoCred envNone).2.2.2.1 (by decide) (by decide) (by decide)⟩

/-- Claim C7: `LoadConfig` returns a configuration iff the path is
non-empty, the file exists, is readable, parses, and the validated fields
are positive/non-empty; every returned configuration satisfies the
invariants; every rejection carries a message naming the failing
field/step, and it makes `GenerateReport` fail before any authentication
or backend step (empty trace). -/
theorem C7_load_config (w : World) (configPath : String) :
    (∀ cfg, LoadConfig w.clean w.stat w.readFile w.yamlParse configPath = Except.ok cfg →
      0 < cfg.chunkSize ∧ cfg.projectID ≠ "" ∧ cfg.location ≠ "" ∧ cfg.geminiModel ≠ "")
  ∧ ((∃ cfg, LoadConfig w.clean w.stat w.readFile w.yamlParse configPath = Except.ok cfg) ↔
      (configPath ≠ "" ∧ w.stat (w.clean configPath) = true ∧
        ∃ content, w.readFile (w.clean configPath) = Except.ok content ∧
          ∃ cfg0, w.yamlParse content = Except.ok cfg0 ∧
            0 < cfg0.chunkSize ∧ cfg0.projectID ≠ "" ∧ cfg0.location ≠ "" ∧
            cfg0.geminiModel ≠ ""))
  ∧ (∀ e, LoadConfig w.clean w.stat w.readFile w.yamlParse configPath = Except.error e →
      (e = "config path cannot be empty"
        ∨ (∃ s, e = "config file not found at path: " ++ s)
        ∨ (∃ s, e = "failed to read config file " ++ s)
        ∨ (∃ s, e = "failed to unmarshal config YAML from " ++ s)
        ∨ e = "chunk_size must be positive in config"
        ∨ e = "project_id cannot be empty in config"
        ∨ e = "location cannot be empty in config"
        ∨ e = "gemini_model cannot be empty in config")
      ∧ ∀ (gitLogsJSON outputPath : String) (issues : List Issue),
          GenerateReport w gitLogsJSON issues configPath outputPath =
            ([], Except.error ("failed to load configuration: " ++ e))) := by
  refine ⟨?_, ⟨?_, ?_⟩, ?_⟩
  · intro cfg h
    simp only [LoadConfig] at h
    split at h
    · exact absurd h (by simp)
    · split at h
      · exact absurd h (by simp)
      · split at h
        · exact absurd h (by simp)
        · split at h
          · exact absurd h (by simp)
          · split at h
            · exact absurd h (by simp)
            · split at h
              · exact absurd h (by simp)
              · split at h
                · exact absurd h (by simp)
                · split at h
                  · exact absurd h (by simp)
                  · next h1 h2 h3 h4 =>
                      simp only [Except.ok.injEq] at h
                      subst h
                      refine ⟨by omega, h2, h3, h4⟩
  · rintro ⟨cfg, h⟩
    simp only [LoadConfig] at h
    split at h
    · exact absurd h (by simp)
    · next hp =>
      split at h
      · exact absurd h (by simp)
      · next hstat =>
        split at h
        · exact absurd h (by simp)
        · next content hread =>
          split at h
          · exact absurd h (by simp)
          · next cfg0 hparse =>
            split at h
            · exact absurd h (by simp)
            · split at h
              · exact absurd h (by simp)
              · split at h
                · exact absurd h (by simp)
                · split at h
                  · exact absurd h (by simp)
                  · next h1 h2 h3 h4 =>
                      refine ⟨hp, by simpa using hstat, content, hread, cfg0, hparse,
                        by omega, h2, h3, h4⟩
  · rintro ⟨hp, hstat, content, hread, cfg0, hparse, hcs, hpid, hloc, hmod⟩
    refine ⟨cfg0, ?_⟩
    simp only [LoadConfig, if_neg hp, hstat, hread, hparse]
    rw [if_neg (by simp), if_neg (by omega : ¬cfg0.chunkSize ≤ 0), if_neg hpid,
      if_neg hloc, if_neg hmod]
  · intro e he
    have hL := he
    constructor
    · simp only [LoadConfig] at he
      split at he
      · simp only [Except.error.injEq] at he
        exact Or.inl he.symm
      · split at he
        · simp only [Except.error.injEq] at he
          exact Or.inr (Or.inl ⟨_, he.symm⟩)
        · split at he
          · rename_i e2 heq2
            simp only [Except.error.injEq] at he
            refine Or.inr (Or.inr (Or.inl ⟨w.clean configPath ++ ": " ++ e2, ?_⟩))
            rw [← he]
            simp [String.append_assoc]
          · split at he
            · rename_i e2 heq2
              simp only [Except.error.injEq] at he
              refine Or.inr (Or.inr (Or.inr (Or.inl ⟨w.clean configPath ++ ": " ++ e2, ?_⟩)))
              rw [← he]
              simp [String.append_assoc]
            · split at he
              · simp only [Except.error.injEq] at he
                exact Or.inr (Or.inr (Or.inr (Or.inr (Or.inl he.symm))))
              · split at he
                · simp only [Except.error.injEq] at he
                  exact Or.inr (Or.inr (Or.inr (Or.inr (Or.inr (Or.inl he.symm)))))
                · split at he
                  · simp only [Except.error.injEq] at he
                    exact Or.inr (Or.inr (Or.inr (Or.inr (Or.inr (Or.inr (Or.inl he.symm))))))
                  · split at he
                    · simp only [Except.error.injEq] at he
                      exact Or.inr (Or.inr (Or.inr (Or.inr (Or.inr (Or.inr (Or.inr he.symm))))))
                    · exact absurd he (by simp)
    · intro gj op iss
      simp only [GenerateReport, hL]

/-- Witness for C7: a world whose config file parses to a valid
configuration, and the empty-path rejection. -/
theorem C7_load_config_witness :
    (∃ cfg, LoadConfig w1.clean w1.stat w1.readFile w1.yamlParse "config.yaml" = Except.ok cfg)
  ∧ GenerateReport w1 "x" [] "" "out.md" =
      ([], Except.error ("failed to load configuration: " ++ "config path cannot be empty")) :=
  ⟨(C7_load_config w1 "config.yaml").2.1.mpr
      ⟨by decide, by decide, "yaml", rfl, cfgA, rfl, by decide, by decide, by decide, by decide⟩,
   (((C7_load_config w1 "").2.2 "config path cannot be empty" rfl).2 "x" "out.md" [])⟩


/-- Claim C1 (code bug): with a commit feed parsing to zero records and an
empty destination path, `GenerateReport` does not short-circuit: it
initializes the backend client, sends the instruction prompt and final
prompt, and returns the model text instead of the empty result — the
fall-through after the `len(logs) == 0` check only returns when an output
path is supplied.  With an output path the short-circuit does hold (third
conjunct). -/
theorem C1_empty_input_fallthrough :
    GenerateReport w1 "[]" [] "config.yaml" "" =
      ([Event.clientInit (AuthMethod.credFile "creds.json"), Event.sendInstruction,
        Event.sendFinalPrompt], Except.ok "AI REPORT")
  ∧ (GenerateReport w1 "[]" [] "config.yaml" "").1.filter Event.isBackend ≠ []
  ∧ GenerateReport w1 "[]" [] "config.yaml" "out.md" =
      ([Event.fileWrite "out.md" noActivityReport], Except.ok "") := by
  refine ⟨by decide, by decide, by decide⟩

/-- Claim C5 (code bug): an issue-chunk send failure reports the
commit-phase chunk total, not the issue-phase total: with one commit at
chunk size 1 (commit total 1) and three issues (issue total 3), the
failure on the second issue chunk reports `2/1` instead of `2/3`. -/
theorem C5_issue_chunk_total_bug :
    (GenerateReport w5 "logs" issues3 "config.yaml" "out.md").2 =
      Except.error "failed to send issues chunk 2/1 to Gemini: boom"
  ∧ ceilDiv issues3.length cfgB.chunkSize.toNat = 3
  ∧ ceilDiv 1 cfgB.chunkSize.toNat = 1 := by
  refine ⟨by decide, by decide, by decide⟩

/-- Claim C6 (code bug): the write of the no-activity placeholder on the
parsed-empty path discards the write error (`_ =` at
activityreport.go:160): with a destination whose writes always fail,
`GenerateReport` still returns success. -/
theorem C6_write_error_swallowed :
    w6.writeFile "out.md" noActivityReport = Except.error "disk full"
  ∧ GenerateReport w6 "[]" [] "config.yaml" "out.md" =
      ([Event.fileWrite "out.md" noActivityReport], Except.ok "") := by
  refine ⟨by decide, by decide⟩


/-- Claim C2: for every non-empty parsed commit sequence of length N and
accepted chunk size C, a successful run sends exactly ceil(N/C)
commit-phase turns whose payloads are the contiguous, order-preserving
chunks of the input: their concatenation equals the input (each record in
exactly one chunk, input order), and every chunk has exactly C records
except possibly the last, which has N mod C records when that is
non-zero. -/
theorem C2_chunk_partition (w : World) (gitLogsJSON configPath outputPath : String)
    (issues : List Issue) (cfg : Config) (auth : AuthMethod) (logs : List CommitLog)
    (r : GenerateContentResponse)
    (hcfg : LoadConfig w.clean w.stat w.readFile w.yamlParse configPath = Except.ok cfg)
    (hauth : selectAuth cfg w.getenv = Except.ok auth)
    (hparse : w.parseLogs gitLogsJSON = Except.ok logs)
    (hne : logs ≠ [])
    (hclient : w.clientInit auth = Except.ok ())
    (hm : ∀ c, ∃ s, w.marshalLogs c = Except.ok s)
    (hmi : ∀ c, ∃ s, w.marshalIssues c = Except.ok s)
    (hs : ∀ n, ∃ r0, w.send n = Except.ok r0)
    (hfr : w.send (finalTurn cfg.chunkSize.toNat logs issues) = Except.ok (some r))
    (hwr : ∀ p c, w.writeFile p c = Except.ok ()) :
    (GenerateReport w gitLogsJSON issues configPath outputPath).1.filterMap Event.commitChunk
        = chunksGo cfg.chunkSize.toNat logs
    ∧ (chunksGo cfg.chunkSize.toNat logs).length = ceilDiv logs.length cfg.chunkSize.toNat
    ∧ (chunksGo cfg.chunkSize.toNat logs).flatten = logs
    ∧ (chunksGo cfg.chunkSize.toNat logs).map List.length =
        List.replicate (ceilDiv logs.length cfg.chunkSize.toNat - 1) cfg.chunkSize.toNat ++
          [if logs.length % cfg.chunkSize.toNat = 0 then cfg.chunkSize.toNat
            else logs.length % cfg.chunkSize.toNat] := by
  have hC := LoadConfig_ok_chunkSize _ _ _ _ _ _ hcfg
  rw [GenerateReport_eq_run w gitLogsJSON configPath outputPath issues cfg auth logs
      hcfg hauth hparse hne,
    runConversation_ok w cfg logs issues outputPath auth r hclient hm hmi hs hfr hwr]
  refine ⟨?_, chunksGo_length hC logs, chunksGo_flatten hC logs,
    chunksGo_map_length hC logs hne⟩
  by_cases hiss : 0 < issues.length <;> by_cases hop : outputPath = "" <;>
    simp [hiss, hop, List.filterMap_append, List.filterMap_cons, Event.commitChunk,
      commitChunkEvents_filterMap, issueChunkEvents_no_commitChunk]

set_option maxRecDepth 4000 in
/-- Witness for C2: 250 commits at chunk size 100 give exactly 3
commit-phase turns of sizes 100, 100, 50 in input order. -/
theorem C2_chunk_partition_witness :
    ((GenerateReport w2 "feed" [] "config.yaml" "out.md").1.filterMap Event.commitChunk
        = chunksGo cfgC.chunkSize.toNat logs250
      ∧ (chunksGo cfgC.chunkSize.toNat logs250).length = ceilDiv logs250.length cfgC.chunkSize.toNat
      ∧ (chunksGo cfgC.chunkSize.toNat logs250).flatten = logs250
      ∧ (chunksGo cfgC.chunkSize.toNat logs250).map List.length =
          List.replicate (ceilDiv logs250.length cfgC.chunkSize.toNat - 1) cfgC.chunkSize.toNat ++
            [if logs250.length % cfgC.chunkSize.toNat = 0 then cfgC.chunkSize.toNat
              else logs250.length % cfgC.chunkSize.toNat])
    ∧ (chunksGo cfgC.chunkSize.toNat logs250).map List.length = [100, 100, 50] :=
  ⟨C2_chunk_partition w2 "feed" "config.yaml" "out.md" [] cfgC
      (AuthMethod.credFile "creds.json") logs250 (respOf "AI REPORT")
      rfl rfl rfl (by simp [logs250]) rfl (fun c => ⟨"[]", rfl⟩) (fun c => ⟨"[]", rfl⟩)
      (fun n => ⟨some (respOf "AI REPORT"), rfl⟩) rfl (fun p c => rfl),
   by decide⟩

/-- Claim C3: on every completed run the report content written and
returned derives solely from the final synthesis turn response through
`extractTextFromResponse` — the conclusion is a function of that response
alone, for arbitrary intermediate chunk responses — and when the final
response extracts to the empty string the fixed error placeholder is
substituted, never an earlier chunk response. -/
theorem C3_final_response_only (w : World) (gitLogsJSON configPath outputPath : String)
    (issues : List Issue) (cfg : Config) (auth : AuthMethod) (logs : List CommitLog)
    (r : GenerateContentResponse)
    (hcfg : LoadConfig w.clean w.stat w.readFile w.yamlParse configPath = Except.ok cfg)
    (hauth : selectAuth cfg w.getenv = Except.ok auth)
    (hparse : w.parseLogs gitLogsJSON = Except.ok logs)
    (hne : logs ≠ [])
    (hclient : w.clientInit auth = Except.ok ())
    (hm : ∀ c, ∃ s, w.marshalLogs c = Except.ok s)
    (hmi : ∀ c, ∃ s, w.marshalIssues c = Except.ok s)
    (hs : ∀ n, ∃ r0, w.send n = Except.ok r0)
    (hfr : w.send (finalTurn cfg.chunkSize.toNat logs issues) = Except.ok (some r))
    (hwr : ∀ p c, w.writeFile p c = Except.ok ()) :
    (GenerateReport w gitLogsJSON issues configPath outputPath).2 = Except.ok (reportOf r)
    ∧ (GenerateReport w gitLogsJSON issues configPath outputPath).1.filterMap Event.writeContent
        = (if outputPath ≠ "" then [reportOf r] else [])
    ∧ (extractTextFromResponse (some r) = "" → reportOf r = extractionErrorReport)
    ∧ (extractTextFromResponse (some r) ≠ "" → reportOf r = extractTextFromResponse (some r)) := by
  rw [GenerateReport_eq_run w gitLogsJSON configPath outputPath issues cfg auth logs
      hcfg hauth hparse hne,
    runConversation_ok w cfg logs issues outputPath auth r hclient hm hmi hs hfr hwr]
  refine ⟨rfl, ?_, fun h => by simp [reportOf, h], fun h => by simp [reportOf, h]⟩
  by_cases hiss : 0 < issues.length <;> by_cases hop : outputPath = "" <;>
    simp [hiss, hop, List.filterMap_append, List.filterMap_cons, Event.writeContent,
      commitChunkEvents_no_write, issueChunkEvents_no_write]

/-- Witness for C3: with a final response having zero candidates, the run
returns the extraction-error placeholder, not any chunk response. -/
theorem C3_final_response_only_witness :
    (GenerateReport w3 "feed" [] "config.yaml" "out.md").2 =
      Except.ok (reportOf { candidates := [] })
    ∧ reportOf { candidates := [] } = extractionErrorReport :=
  ⟨(C3_final_response_only w3 "feed" "config.yaml" "out.md" [] cfgA
      (AuthMethod.credFile "creds.json") [{ raw := "a" }] { candidates := [] }
      rfl rfl rfl (by decide) rfl (fun c => ⟨"[]", rfl⟩) (fun c => ⟨"[]", rfl⟩)
      (fun n => ⟨some { candidates := [] }, rfl⟩) rfl (fun p c => rfl)).1,
   by decide⟩

/-- Claim C8: the issue phase runs iff the issue sequence is non-empty —
no transition and no issue-chunk turn when it is empty, with the commit
phase unchanged; when non-empty, exactly one transition followed by the
issue chunks produced with the same chunk size; and a failure of the
transition or of any issue chunk aborts the whole operation with an
error. -/
theorem C8_issue_phase_iff (w : World) (gitLogsJSON configPath outputPath : String)
    (issues : List Issue) (cfg : Config) (auth : AuthMethod) (logs : List CommitLog)
    (hcfg : LoadConfig w.clean w.stat w.readFile w.yamlParse configPath = Except.ok cfg)
    (hauth : selectAuth cfg w.getenv = Except.ok auth)
    (hparse : w.parseLogs gitLogsJSON = Except.ok logs)
    (hne : logs ≠ [])
    (hclient : w.clientInit auth = Except.ok ())
    (hm : ∀ c, ∃ s, w.marshalLogs c = Except.ok s)
    (hmi : ∀ c, ∃ s, w.marshalIssues c = Except.ok s) :
    (∀ (r : GenerateContentResponse),
      (∀ n, ∃ r0, w.send n = Except.ok r0) →
      w.send (finalTurn cfg.chunkSize.toNat logs issues) = Except.ok (some r) →
      (∀ p c, w.writeFile p c = Except.ok ()) →
      (issues.length = 0 →
        (GenerateReport w gitLogsJSON issues configPath outputPath).1.filter
          Event.isIssuePhase = [])
      ∧ (0 < issues.length →
        (GenerateReport w gitLogsJSON issues configPath outputPath).1.filter
            Event.isIssuePhase =
          Event.sendIssueTransition ::
            issueChunkEvents (ceilDiv logs.length cfg.chunkSize.toNat)
              (chunksGo cfg.chunkSize.toNat issues) 1
        ∧ (GenerateReport w gitLogsJSON issues configPath outputPath).1.filterMap
            Event.issueChunk = chunksGo cfg.chunkSize.toNat issues
        ∧ (chunksGo cfg.chunkSize.toNat issues).flatten = issues)
      ∧ (GenerateReport w gitLogsJSON issues configPath outputPath).1.filterMap
          Event.commitChunk = chunksGo cfg.chunkSize.toNat logs)
  ∧ (∀ e, (∀ k, k < 1 + (chunksGo cfg.chunkSize.toNat logs).length →
        ∃ r0, w.send k = Except.ok r0) →
      0 < issues.length →
      w.send (1 + (chunksGo cfg.chunkSize.toNat logs).length) = Except.error e →
      (GenerateReport w gitLogsJSON issues configPath outputPath).2 =
        Except.error ("failed to send issues introduction message to Gemini: " ++ e))
  ∧ (∀ e, (∀ k, k < 1 + (chunksGo cfg.chunkSize.toNat logs).length →
        ∃ r0, w.send k = Except.ok r0) →
      0 < issues.length →
      (∃ r0, w.send (1 + (chunksGo cfg.chunkSize.toNat logs).length) = Except.ok r0) →
      (sendIssueChunks w (ceilDiv logs.length cfg.chunkSize.toNat)
          (chunksGo cfg.chunkSize.toNat issues)
          (1 + (chunksGo cfg.chunkSize.toNat logs).length + 1) 1).2.2 = Except.error e →
      (GenerateReport w gitLogsJSON issues configPath outputPath).2 = Except.error e) := by
  have hC := LoadConfig_ok_chunkSize _ _ _ _ _ _ hcfg
  have hrun := GenerateReport_eq_run w gitLogsJSON configPath outputPath issues cfg auth logs
    hcfg hauth hparse hne
  refine ⟨?_, ?_, ?_⟩
  · intro r hs hfr hwr
    rw [hrun, runConversation_ok w cfg logs issues outputPath auth r hclient hm hmi hs hfr hwr]
    refine ⟨?_, ?_, ?_⟩
    · intro hzero
      have hiss : ¬ 0 < issues.length := by omega
      by_cases hop : outputPath = "" <;>
        simp [hiss, hop, List.filter_append, List.filter_cons, Event.isIssuePhase,
          commitChunkEvents_not_issuePhase]
    · intro hiss
      refine ⟨?_, ?_, chunksGo_flatten hC issues⟩
      · by_cases hop : outputPath = "" <;>
          simp [hiss, hop, List.filter_append, List.filter_cons, Event.isIssuePhase,
            commitChunkEvents_not_issuePhase, issueChunkEvents_issuePhase]
      · by_cases hop : outputPath = "" <;>
          simp [hiss, hop, List.filterMap_append, List.filterMap_cons, Event.issueChunk,
            commitChunkEvents_no_issueChunk, issueChunkEvents_filterMap]
    · by_cases hiss : 0 < issues.length <;> by_cases hop : outputPath = "" <;>
        simp [hiss, hop, List.filterMap_append, List.filterMap_cons, Event.commitChunk,
          commitChunkEvents_filterMap, issueChunkEvents_no_commitChunk]
  · intro e hs hiss herr
    rw [hrun]
    exact runConversation_transition_error w cfg logs issues outputPath auth e
      hclient hm hs hiss herr
  · intro e hs hiss htrans herr
    rw [hrun]
    exact runConversation_issue_loop_error w cfg logs issues outputPath auth e
      hclient hm hs hiss htrans herr

/-- Witness for C8: three commits at chunk size 2 with one issue produce
exactly one transition followed by the single issue chunk; with no issues,
no issue-phase event occurs. -/
theorem C8_issue_phase_iff_witness :
    ((GenerateReport w8 "feed" [{ raw := "i" }] "config.yaml" "").1.filter Event.isIssuePhase =
      Event.sendIssueTransition ::
        issueChunkEvents
          (ceilDiv ([{ raw := "a" }, { raw := "b" }, { raw := "c" }] : List CommitLog).length
            cfgA.chunkSize.toNat)
          (chunksGo cfgA.chunkSize.toNat [({ raw := "i" } : Issue)]) 1)
    ∧ ((GenerateReport w8 "feed" [] "config.yaml" "").1.filter Event.isIssuePhase = []) :=
  ⟨(((C8_issue_phase_iff w8 "feed" "config.yaml" "" [{ raw := "i" }] cfgA
        (AuthMethod.credFile "creds.json") [{ raw := "a" }, { raw := "b" }, { raw := "c" }]
        rfl rfl rfl (by decide) rfl (fun c => ⟨"[]", rfl⟩) (fun c => ⟨"[]", rfl⟩)).1
      (respOf "R") (fun n => ⟨some (respOf "R"), rfl⟩) rfl (fun p c => rfl)).2.1
      (by decide)).1,
   (((C8_issue_phase_iff w8 "feed" "config.yaml" "" [] cfgA
        (AuthMethod.credFile "creds.json") [{ raw := "a" }, { raw := "b" }, { raw := "c" }]
        rfl rfl rfl (by decide) rfl (fun c => ⟨"[]", rfl⟩) (fun c => ⟨"[]", rfl⟩)).1
      (respOf "R") (fun n => ⟨some (respOf "R"), rfl⟩) rfl (fun p c => rfl)).1 rfl)⟩

/-- Claim C10: for every configuration accepted by `LoadConfig` the chunk
loops perform exactly ceil(N/ChunkSize) iterations over a length-N
sequence (both the commit and the issue loop), the loop guard holds for
exactly that many iterations, and with a chunk size of zero the loop index
never advances, so the guard holds forever (non-termination). -/
theorem C10_loop_termination (w : World) (configPath : String) (cfg : Config)
    (hcfg : LoadConfig w.clean w.stat w.readFile w.yamlParse configPath = Except.ok cfg) :
    0 < cfg.chunkSize.toNat
  ∧ (∀ (logs : List CommitLog),
      (chunksGo cfg.chunkSize.toNat logs).length = ceilDiv logs.length cfg.chunkSize.toNat)
  ∧ (∀ (issues : List Issue),
      (chunksGo cfg.chunkSize.toNat issues).length = ceilDiv issues.length cfg.chunkSize.toNat)
  ∧ (∀ N k, chunkLoopIdx cfg.chunkSize.toNat k < N ↔ k < ceilDiv N cfg.chunkSize.toNat)
  ∧ (∀ N k, 0 < N → chunkLoopIdx 0 k < N) := by
  have hC := LoadConfig_ok_chunkSize _ _ _ _ _ _ hcfg
  refine ⟨hC, fun logs => chunksGo_length hC logs, fun issues => chunksGo_length hC issues,
    fun N k => chunkLoopIdx_lt_iff hC N k, fun N k hN => ?_⟩
  rw [chunkLoopIdx_eq]
  simpa using hN

/-- Witness for C10: concrete loop counts for chunk size 2 over three
records, and the stuck guard for chunk size 0. -/
theorem C10_loop_termination_witness :
    0 < cfgA.chunkSize.toNat
  ∧ (chunksGo cfgA.chunkSize.toNat
      ([{ raw := "a" }, { raw := "b" }, { raw := "c" }] : List CommitLog)).length =
      ceilDiv ([{ raw := "a" }, { raw := "b" }, { raw := "c" }] : List CommitLog).length
        cfgA.chunkSize.toNat
  ∧ (chunkLoopIdx cfgA.chunkSize.toNat 1 < 3 ↔ 1 < ceilDiv 3 cfgA.chunkSize.toNat)
  ∧ chunkLoopIdx 0 1000 < 3 :=
  ⟨(C10_loop_termination w1 "config.yaml" cfgA rfl).1,
   (C10_loop_termination w1 "config.yaml" cfgA rfl).2.1 _,
   (C10_loop_termination w1 "config.yaml" cfgA rfl).2.2.2.1 3 1,
   (C10_loop_termination w1 "config.yaml" cfgA rfl).2.2.2.2 3 1000 (by decide)⟩

end Reporting
